import Mathlib

/-!
Verification of the invoice-extraction scripts.

Text is modelled as `List Char` (Python `str`).  Python's `re` module is
modelled by a small executable matching engine (`Re`, `mrun`, `reSearch`,
`reFindAll`, `reSplitAux`) whose behaviour on the concrete patterns used by
the scripts mirrors the Python semantics: left-to-right search for the
leftmost match, greedy/lazy quantifiers with backtracking (encoded as a
priority-ordered list of possible match lengths), case-insensitive literals
(all the scripts compile their patterns with `re.I`), word boundaries,
capture groups 1 and 2 and lookahead.  Python floats carrying two-decimal
currency amounts are modelled as exact integer cents.
-/

set_option maxRecDepth 20000

namespace PdfExtract

/-- Python whitespace class `\s` restricted to ASCII (the scripts only ever
see ASCII whitespace): space, tab, newline, carriage return, vertical tab,
form feed. -/
def pyWS (c : Char) : Bool :=
  c == ' ' || c == '\t' || c == '\n' || c == '\r' || c == '\x0b' || c == '\x0c'

/-- Python word-character class `\w` restricted to ASCII: letters, digits
and underscore.  Used for the `\b` word boundary. -/
def isWordCharB (c : Char) : Bool :=
  c.isAlphanum || c == '_'

/-- Left strip: Python `str.lstrip()`. -/
def lstrip (l : List Char) : List Char := l.dropWhile pyWS

/-- Right strip: Python `str.rstrip()`. -/
def rstrip (l : List Char) : List Char := (l.reverse.dropWhile pyWS).reverse

/-- Python `str.strip()`: remove leading and trailing whitespace. -/
def pyStrip (l : List Char) : List Char := rstrip (lstrip l)

/-- Number of non-whitespace characters of a text (the measure used by the
spec's wording of the OCR threshold). -/
def countNonWS (l : List Char) : Nat := (l.filter (fun c => !pyWS c)).length

/-- Case-insensitive character comparison, as under `re.I`. -/
def ciEqChar (a b : Char) : Bool := a.toLower == b.toLower

/-- Case-insensitive prefix test for literal pattern fragments. -/
def ciIsPrefix : List Char → List Char → Bool
  | [], _ => true
  | _ :: _, [] => false
  | p :: ps, c :: cs => ciEqChar p c && ciIsPrefix ps cs

/-- Length of the maximal leading run of characters satisfying `f`. -/
def leadCount (f : Char → Bool) : List Char → Nat
  | [] => 0
  | c :: cs => if f c then leadCount f cs + 1 else 0

/-- The two capture-group slots (none of the scripts' patterns uses more
than two groups). -/
abbrev Caps := Option (List Char) × Option (List Char)

/-- Store a captured substring into group slot `i` (1 or 2). -/
def setCap (i : Nat) (v : List Char) (cp : Caps) : Caps :=
  if i == 1 then (some v, cp.2) else (cp.1, some v)

/-- Abstract syntax of the regular expressions used by the scripts.
Every quantifier in those patterns quantifies a single character class,
which `rep` captures directly; `lit` is a case-insensitive literal
(`re.I` is set on every search in the scripts). -/
inductive Re where
  | lit : List Char → Re
  | cls : (Char → Bool) → Re
  | rep : (Char → Bool) → Nat → Option Nat → Bool → Re
  | cat : Re → Re → Re
  | alt : Re → Re → Re
  | grp : Nat → Re → Re
  | look : Re → Re
  | wb : Re

/-- The character just before position `n` of `s` (`pv` when `n = 0`);
needed by the `\b` word-boundary test. -/
def prevAfter (pv : Option Char) (s : List Char) (n : Nat) : Option Char :=
  if n = 0 then pv else (s.drop (n - 1)).head?

/-- Candidate repetition counts in backtracking-priority order: greedy
quantifiers try the longest run first, lazy ones the shortest. -/
def countsFrom (lo top : Nat) (lz : Bool) : List Nat :=
  (List.range (top + 1 - lo)).map (fun i => if lz then lo + i else top - i)

/-- Is a position a `\b` word boundary given the previous character? -/
def isWordOpt : Option Char → Bool
  | some c => isWordCharB c
  | none => false

/-- Run a pattern at the start of `s` (with `pv` the character preceding
`s` in the full text).  Returns all possible matches as pairs of consumed
length and capture state, in backtracking-priority order; Python's engine
takes the first. -/
def mrun : Re → Option Char → List Char → Caps → List (Nat × Caps)
  | Re.lit L, _, s, cp => if ciIsPrefix L s then [(L.length, cp)] else []
  | Re.cls f, _, s, cp =>
    match s with
    | c :: _ => if f c then [(1, cp)] else []
    | [] => []
  | Re.rep f lo hi lz, _, s, cp =>
    let run := leadCount f s
    let top := match hi with
      | some h => min h run
      | none => run
    if lo ≤ top then (countsFrom lo top lz).map (fun n => (n, cp)) else []
  | Re.cat a b, pv, s, cp =>
    (mrun a pv s cp).flatMap (fun r =>
      (mrun b (prevAfter pv s r.1) (s.drop r.1) r.2).map (fun q => (r.1 + q.1, q.2)))
  | Re.alt a b, pv, s, cp => mrun a pv s cp ++ mrun b pv s cp
  | Re.grp i r, pv, s, cp =>
    (mrun r pv s cp).map (fun q => (q.1, setCap i (s.take q.1) q.2))
  | Re.look r, pv, s, cp => if (mrun r pv s cp).isEmpty then [] else [(0, cp)]
  | Re.wb, pv, s, cp => if isWordOpt pv != isWordOpt s.head? then [(0, cp)] else []

/-- Leftmost search: try the pattern at every position from left to right,
returning skip count to the match position, match length and captures of
the first (leftmost, highest-priority) match, as `re.search` does. -/
def searchFrom (r : Re) (pv : Option Char) (s : List Char) :
    Option (Nat × Nat × Caps) :=
  match (mrun r pv s (none, none)).head? with
  | some (n, c) => some (0, n, c)
  | none =>
    match s with
    | [] => none
    | ch :: tl => (searchFrom r (some ch) tl).map (fun x => (x.1 + 1, x.2.1, x.2.2))

/-- Result of a successful `re.search`: the text before the match, the
matched text (`group(0)`) and the capture groups. -/
structure SRes where
  pre : List Char
  matched : List Char
  caps : Caps
deriving DecidableEq

/-- The `re.search(pattern, text)` (all the scripts' calls set `re.I`, and
`re.S` where it matters; both are baked into the pattern encodings). -/
def reSearch (r : Re) (s : List Char) : Option SRes :=
  (searchFrom r none s).map (fun x =>
    ⟨s.take x.1, (s.drop x.1).take x.2.1, x.2.2⟩)

/-- Fuelled worker for `re.findall`: repeated leftmost search, continuing
after each non-empty match (after a zero-width match Python advances one
character).  Fuel `s.length + 1` suffices for every pattern in this file. -/
def reFindAllAux (r : Re) : Option Char → List Char → Nat → List (List Char × Caps)
  | _, _, 0 => []
  | pv, s, fuel + 1 =>
    match searchFrom r pv s with
    | none => []
    | some (sk, n, c) =>
      let m := (s.drop sk).take n
      if n = 0 then
        match s.drop sk with
        | [] => [(m, c)]
        | ch :: tl => (m, c) :: reFindAllAux r (some ch) tl fuel
      else
        (m, c) :: reFindAllAux r (prevAfter pv s (sk + n)) (s.drop (sk + n)) fuel

/-- The `re.findall(pattern, text)`: full matched texts plus capture states. -/
def reFindAll (r : Re) (s : List Char) : List (List Char × Caps) :=
  reFindAllAux r none s (s.length + 1)

/-- Fuelled worker for `re.split`: returns the parts between matches and
the matched (removed) pieces.  The patterns split on in this file cannot
match the empty string, so the zero-width guard is unreachable. -/
def reSplitAux (r : Re) : Option Char → List Char → Nat → List (List Char) × List (List Char)
  | _, s, 0 => ([s], [])
  | pv, s, fuel + 1 =>
    match searchFrom r pv s with
    | none => ([s], [])
    | some (sk, n, _) =>
      if n = 0 then ([s], [])
      else
        let rec0 := reSplitAux r (prevAfter pv s (sk + n)) (s.drop (sk + n)) fuel
        ((s.take sk) :: rec0.1, ((s.drop sk).take n) :: rec0.2)

/-- The `re.split(pattern, text)` (the pattern has no capture groups, so the
result is just the list of parts). -/
def reSplit (r : Re) (s : List Char) : List (List Char) :=
  (reSplitAux r none s (s.length + 1)).1

/-- Interleave split parts with the removed matched pieces; used to state
that `re.split` removes the separators from the text. -/
def interleave : List (List Char) → List (List Char) → List Char
  | [], _ => []
  | p :: _, [] => p
  | p :: ps, m :: ms => p ++ m ++ interleave ps ms

/-- Fuelled worker for `re.sub(pattern, repl, text)`: replace every
non-overlapping match by `repl`.  The patterns substituted in this file
cannot match the empty string. -/
def reSubAux (r : Re) (repl : List Char) : Option Char → List Char → Nat → List Char
  | _, s, 0 => s
  | pv, s, fuel + 1 =>
    match searchFrom r pv s with
    | none => s
    | some (sk, n, _) =>
      if n = 0 then s
      else (s.take sk) ++ repl ++ reSubAux r repl (prevAfter pv s (sk + n)) (s.drop (sk + n)) fuel

/-- The `re.sub(pattern, repl, text)`. -/
def reSub (r : Re) (repl : List Char) (s : List Char) : List Char :=
  reSubAux r repl none s (s.length + 1)

/-- Index of the first occurrence of `pat` as a contiguous (case-sensitive)
substring, as used by Python's `in` and `str.split(word)`. -/
def subIndex (pat : List Char) : List Char → Option Nat
  | [] => if pat.isEmpty then some 0 else none
  | c :: cs =>
    if List.isPrefixOf pat (c :: cs) then some 0 else (subIndex pat cs).map (· + 1)

/-- Python `val.split(word)[0]` under the guard `word in val` (when the
word is absent the whole string is returned, which is also what the
script's guarded code leaves in place). -/
def splitBefore (pat s : List Char) : List Char :=
  match subIndex pat s with
  | some i => s.take i
  | none => s

/-!  ## Numbers

Every string reaching Python's `float` in the embedded code paths is
captured by a pattern ending in `\.\d{2}`, so its value is an exact
multiple of 0.01.  Amounts are therefore modelled in integer *cents*
(`ℤ`): `float(s)` becomes `pyFloatCents s`, sums of floats become sums of
cents (exact, because binary floating point is exact-enough here: Python
prints the same two-decimal result), and `round(x, 2)` is the identity on
such values and is dropped from the model. -/

/-- Value of a digit string (the scripts only feed `[0-9]*` runs here). -/
def digitsToNat (ds : List Char) : Nat := ds.foldl (fun a c => a * 10 + (c.toNat - 48)) 0

/-- Python `float(s)` in cents, for the `digits.dd` strings produced by
the amount patterns (after comma stripping): integer part times 100 plus
the two fractional digits. -/
def pyFloatCents (s : List Char) : ℤ :=
  let ip := s.takeWhile (fun c => c != '.')
  let fp := (s.dropWhile (fun c => c != '.')).drop 1
  (digitsToNat ip : ℤ) * 100 + (digitsToNat fp : ℤ)

/-!  ## The concrete patterns used by the scripts -/

/-- The `\s*` -/
def sp0 : Re := .rep pyWS 0 none false

/-- The `\s+` -/
def sp1 : Re := .rep pyWS 1 none false

/-- The `[:\-]?` -/
def sepOpt : Re := .rep (fun c => c == ':' || c == '-') 0 (some 1) false

/-- Concatenation of a list of pattern fragments. -/
def rcat (rs : List Re) : Re := rs.foldr Re.cat (Re.lit [])

/-- The `\bTAX\s+INVOICE\b` — the swiggy multi-invoice anchor
(`extract_multivendor_pdf.py` line 189). -/
def P_anchor : Re := rcat [.wb, .lit ("TAX".data), sp1, .lit ("INVOICE".data), .wb]

/-- The `Invoice\s*Value\s*([\d]+)` — the per-segment invoice-value marker
(`extract_multivendor_pdf.py` line 191). -/
def P_invVal : Re :=
  rcat [.lit ("Invoice".data), sp0, .lit ("Value".data), sp0,
    .grp 1 (.rep Char.isDigit 1 none false)]

/-- The `([\d]+\.\d{2})` — comma-free two-decimal amount group. -/
def amtNoComma : Re :=
  rcat [.rep Char.isDigit 1 none false, .lit (".".data), .rep Char.isDigit 2 (some 2) false]

/-- The `([\d,]+\.\d{2})` — two-decimal amount group allowing thousands commas. -/
def amtComma : Re :=
  rcat [.rep (fun c => c.isDigit || c == ',') 1 none false, .lit (".".data),
    .rep Char.isDigit 2 (some 2) false]

/-- The `Total\s*CGST\s*([\d]+\.\d{2})` (`extract_multivendor_pdf.py` line 205). -/
def P_totCGST : Re := rcat [.lit ("Total".data), sp0, .lit ("CGST".data), sp0, .grp 1 amtNoComma]

/-- The `Total\s*SGST\s*([\d]+\.\d{2})` (`extract_multivendor_pdf.py` line 206). -/
def P_totSGST : Re := rcat [.lit ("Total".data), sp0, .lit ("SGST".data), sp0, .grp 1 amtNoComma]

/-- The `(IGST|CGST|SGST)[^\d]{0,10}([\d,]+\.\d{2})`
(`extract_invode_terminal.py` line 114). -/
def P_taxTerm : Re :=
  rcat [.grp 1 (.alt (.lit ("IGST".data)) (.alt (.lit ("CGST".data)) (.lit ("SGST".data)))),
    .rep (fun c => !c.isDigit) 0 (some 10) false, .grp 2 amtComma]

/-- The `(CGST|SGST|IGST)[^\d]{0,10}([\d,]+\.\d{2})`
(`extract_multivendor_pdf.py` line 148). -/
def P_taxAmz : Re :=
  rcat [.grp 1 (.alt (.lit ("CGST".data)) (.alt (.lit ("SGST".data)) (.lit ("IGST".data)))),
    .rep (fun c => !c.isDigit) 0 (some 10) false, .grp 2 amtComma]

/-- The `(Invoice\s*Value|TOTAL\s*Amount|Grand\s*Total)[^\d]{0,20}([\d,]+\.\d{2})`
(`extract_invode_terminal.py` line 121, `extract_multivendor_pdf.py` line 115). -/
def P_labeledTotal : Re :=
  rcat [.grp 1 (.alt (rcat [.lit ("Invoice".data), sp0, .lit ("Value".data)])
      (.alt (rcat [.lit ("TOTAL".data), sp0, .lit ("Amount".data)])
        (rcat [.lit ("Grand".data), sp0, .lit ("Total".data)]))),
    .rep (fun c => !c.isDigit) 0 (some 20) false, .grp 2 amtComma]

/-- The `\b\d+\.\d{2}\b` — the loose last-resort total pattern
(`extract_invode_terminal.py` line 128, `extract_multivendor_pdf.py` line 120). -/
def P_loose : Re :=
  rcat [.wb, .rep Char.isDigit 1 none false, .lit (".".data),
    .rep Char.isDigit 2 (some 2) false, .wb]

/-- The `Invoice\s*No\s*[:\-]?\s*([A-Z0-9]+)` (swiggy, under `re.I`). -/
def P_swInvNo : Re :=
  rcat [.lit ("Invoice".data), sp0, .lit ("No".data), sp0, sepOpt, sp0,
    .grp 1 (.rep Char.isAlphanum 1 none false)]

/-- The `Order\s*ID\s*[:\-]?\s*(\d+)` (swiggy). -/
def P_swOrd : Re :=
  rcat [.lit ("Order".data), sp0, .lit ("ID".data), sp0, sepOpt, sp0,
    .grp 1 (.rep Char.isDigit 1 none false)]

/-- The `Date\s*of\s*Invoice\s*[:\-]?\s*([\d\-]+)` (swiggy). -/
def P_swDate : Re :=
  rcat [.lit ("Date".data), sp0, .lit ("of".data), sp0, .lit ("Invoice".data), sp0, sepOpt, sp0,
    .grp 1 (.rep (fun c => c.isDigit || c == '-') 1 none false)]

/-- The `Seller\s*Name\s*[:\-]?\s*([A-Z][A-Z\s&.-]+)` (swiggy; `[A-Z]` also
matches lower case because of `re.I`). -/
def P_swSellerName : Re :=
  rcat [.lit ("Seller".data), sp0, .lit ("Name".data), sp0, sepOpt, sp0,
    .grp 1 (.cat (.cls Char.isAlpha)
      (.rep (fun c => c.isAlpha || pyWS c || c == '&' || c == '.' || c == '-') 1 none false))]

/-- The `Seller\s*GSTIN\s*[:\-]?\s*([A-Z0-9]+)` (swiggy). -/
def P_swGST : Re :=
  rcat [.lit ("Seller".data), sp0, .lit ("GSTIN".data), sp0, sepOpt, sp0,
    .grp 1 (.rep Char.isAlphanum 1 none false)]

/-- The `FSSAI\s*[:\-]?\s*(\d+)` (swiggy). -/
def P_swFSSAI : Re :=
  rcat [.lit ("FSSAI".data), sp0, sepOpt, sp0, .grp 1 (.rep Char.isDigit 1 none false)]

/-- The `Customer\s*Address\s*:\s*(.*?)(?=Order\s*ID|Invoice\s*No|FSSAI)`
(swiggy; `re.S` makes `.` match newlines). -/
def P_custAddr : Re :=
  rcat [.lit ("Customer".data), sp0, .lit ("Address".data), sp0, .lit (":".data), sp0,
    .grp 1 (.rep (fun _ => true) 0 none true),
    .look (.alt (rcat [.lit ("Order".data), sp0, .lit ("ID".data)])
      (.alt (rcat [.lit ("Invoice".data), sp0, .lit ("No".data)]) (.lit ("FSSAI".data))))]

/-- The `Amount\s*in\s*words\s*[:\-]?\s*([A-Za-z\s]+?)(?=\n|Invoice|Whether|Discount|Disclaimer)`
(swiggy). -/
def P_amtWords : Re :=
  rcat [.lit ("Amount".data), sp0, .lit ("in".data), sp0, .lit ("words".data), sp0, sepOpt, sp0,
    .grp 1 (.rep (fun c => c.isAlpha || pyWS c) 1 none true),
    .look (.alt (.lit ("\n".data)) (.alt (.lit ("Invoice".data)) (.alt (.lit ("Whether".data))
      (.alt (.lit ("Discount".data)) (.lit ("Disclaimer".data))))))]

/-- The `\*.*` in `clean_address` (`extract_multivendor_pdf.py` line 53; no
flags, so `.` stops at a newline). -/
def P_footnote : Re := .cat (.lit ("*".data)) (.rep (fun c => c != '\n') 0 none false)

/-- The `\s{2,}` in `clean_address` (`extract_multivendor_pdf.py` line 54). -/
def P_ws2 : Re := .rep pyWS 2 none false

/-!  ## Embedded script functions -/

/-- The `extract_field` of `extract_multivendor_pdf.py` (lines 38–43) and
`extract_invode_terminal.py`/`extract_pdf_data.py`: try the patterns in
order and return the first match's `group(1).strip()`.  When the matching
pattern has no participating group 1, Python raises (`IndexError` from
`m.group(1)`, or `AttributeError` from `None.strip()`); that exceptional
outcome is the `Except.error` case. -/
def extract_field_mv (text : List Char) : List Re → Except Unit (Option (List Char))
  | [] => Except.ok none
  | p :: ps =>
    match reSearch p text with
    | some res =>
      match res.caps.1 with
      | some g => Except.ok (some (pyStrip g))
      | none => Except.error ()
    | none => extract_field_mv text ps

/-- The `m.lastindex` of a match, for the at-most-two-group patterns used
here: the highest participating group number (0 when no group matched,
which Python renders as `None`). -/
def lastIdx (cp : Caps) : Nat :=
  if cp.2.isSome then 2 else if cp.1.isSome then 1 else 0

/-- The `extract_field` of `extract_amazon_invoice.py` (lines 28–37): like
`extract_field_mv` but a match in which no group participated returns
`m.group(0).strip()` (the whole match) instead of raising. -/
def extract_field_am (text : List Char) : List Re → Except Unit (Option (List Char))
  | [] => Except.ok none
  | p :: ps =>
    match reSearch p text with
    | some res =>
      if 1 ≤ lastIdx res.caps then
        match res.caps.1 with
        | some g => Except.ok (some (pyStrip g))
        | none => Except.error ()
      else Except.ok (some (pyStrip res.matched))
    | none => extract_field_am text ps

/-- The `extract_field(text, [p])` for a single pattern whose group 1
participates in every successful match — true of every pattern the swiggy
extractor passes to `extract_field`, so the `IndexError` branch of
`extract_field_mv` is unreachable there and is collapsed to `none`. -/
def ef1 (r : Re) (text : List Char) : Option (List Char) :=
  (reSearch r text).bind (fun res => res.caps.1.map pyStrip)

/-- The `re.sub(r"[₹,\s]", "", val)` — drop currency sign, commas and
whitespace. -/
def stripMoneyChars (v : List Char) : List Char :=
  v.filter (fun c => !(c == '₹' || c == ',' || pyWS c))

/-- The `normalize_number` of `extract_multivendor_pdf.py` (lines 45–48) and
`extract_invode_terminal.py`: `None` for falsy input, else the stripped
string (possibly empty). -/
def normalize_number (val : Option (List Char)) : Option (List Char) :=
  match val with
  | none => none
  | some v => if v.isEmpty then none else some (stripMoneyChars v)

/-- The `normalize_number` of `extract_amazon_invoice.py` (lines 39–44): as
above but an empty result is also collapsed to `None`
(`return s if s else None`). -/
def normalize_number_am (val : Option (List Char)) : Option (List Char) :=
  match val with
  | none => none
  | some v =>
    if v.isEmpty then none
    else
      let s := stripMoneyChars v
      if s.isEmpty then none else some s

/-- The `clean_address` of `extract_multivendor_pdf.py` (lines 50–54):
remove `\*.*` footnotes, turn runs of two or more whitespace characters
into a newline, strip. -/
def clean_address (val : Option (List Char)) : Option (List Char) :=
  match val with
  | none => none
  | some v =>
    if v.isEmpty then none
    else some (pyStrip (reSub P_ws2 ("\n".data) (reSub P_footnote [] v)))

/-- The `clean_amount_in_words` of `extract_multivendor_pdf.py` (lines 56–64):
keep the first line, then cut before the first occurrence of each stop
word. -/
def clean_amount_in_words (val : Option (List Char)) : Option (List Char) :=
  match val with
  | none => none
  | some v =>
    if v.isEmpty then none
    else
      let v1 := pyStrip (v.takeWhile (fun c => c != '\n'))
      let stops := [("For".data), ("Authorized Signatory".data), ("Whether".data), ("*ASSPL".data)]
      some (stops.foldl
        (fun acc w => if (subIndex w acc).isSome then pyStrip (splitBefore w acc) else acc) v1)

/-- The summed cents of the amount captures (group 2) of a tax findall,
after `v.replace(",", "")`: models
`sum(float(v.replace(",", "")) for _, v in tax_values)`.  The subsequent
Python `round(..., 2)` is the identity on these exact two-decimal sums
and is dropped by the cents model. -/
def sumTaxCents (tv : List (List Char × Caps)) : ℤ :=
  (tv.map (fun m => pyFloatCents ((m.2.2.getD []).filter (fun c => c != ',')))).sum

/-- The `extract_tax` of `extract_invode_terminal.py` (lines 113–117):
`None` if the findall is empty, else the (rounded) sum of every matched
CGST/SGST/IGST amount. -/
def extract_tax (text : List Char) : Option ℤ :=
  let tax_values := reFindAll P_taxTerm text
  if tax_values.isEmpty then none
  else some (sumTaxCents tax_values)

/-- The amazon tax-aggregation fragment of `extract_multivendor_pdf.py`
(lines 148–150): `row["total_tax"]` after the fragment, `none` meaning
the row keeps its initial `None`. -/
def amazonTaxTotal (text : List Char) : Option ℤ :=
  let taxes := reFindAll P_taxAmz text
  if taxes.isEmpty then none
  else some (sumTaxCents taxes)

/-- The `extract_total_amount` of `extract_invode_terminal.py` (lines 119–131)
and `extract_multivendor_pdf.py` (lines 114–123): the labelled pattern's
`group(2)` (normalized) if it matches, else the last `\b\d+\.\d{2}\b`
findall match, else `None`. -/
def extract_total_amount (text : List Char) : Option (List Char) :=
  match reSearch P_labeledTotal text with
  | some res => normalize_number (some (res.caps.2.getD []))
  | none => ((reFindAll P_loose text).map Prod.fst).getLast?

/-- The page loop of `extract_text`: concatenate each page's
`page.extract_text()` result (skipping `None` pages) with a trailing
newline each. -/
def concatPages (ps : List (Option (List Char))) : List Char :=
  ps.foldl (fun acc op => match op with
    | some t => acc ++ t ++ ['\n']
    | none => acc) []

/-- The OCR loop of `extract_text`: concatenate each page's
`image_to_string` output with a trailing newline each. -/
def concatOcr (ps : List (List Char)) : List Char :=
  ps.foldl (fun acc p => acc ++ p ++ ['\n']) []

/-- The `extract_text` of `extract_multivendor_pdf.py` (lines 19–33) and
`extract_pdf_data.py` (lines 19–38).  The pdfplumber and OCR collaborators
are passed in as data: `native` is the per-page result of
`page.extract_text()` (or `Except.error` when `pdfplumber.open` raised —
the swallowed exception), `ocr` the per-page OCR strings (or
`Except.error` when the OCR path raised, in which case the exception
propagates out of `extract_text`). -/
def extract_text (native : Except Unit (List (Option (List Char))))
    (ocr : Except Unit (List (List Char))) : Except Unit (List Char) :=
  let text := match native with
    | Except.error _ => []
    | Except.ok ps => concatPages ps
  if (pyStrip text).length < 200 then
    match ocr with
    | Except.error e => Except.error e
    | Except.ok imgs => Except.ok (text ++ concatOcr imgs)
  else Except.ok text

/-!  ## The swiggy multi-invoice extractor -/

/-- The fields `extract_swiggy` assigns into a row
(`extract_multivendor_pdf.py` lines 194–211); the remaining template
columns stay at their initial `None` and are never read by the claims. -/
structure SwiggyRow where
  srcField : String
  invoice_number : Option (List Char)
  order_number : Option (List Char)
  invoice_date : Option (List Char)
  order_date : Option (List Char)
  seller_name : Option (List Char)
  seller_gst : Option (List Char)
  fssai_license : Option (List Char)
  billing_address : Option (List Char)
  place_of_delivery : Option (List Char)
  total_tax : Option ℤ
  total_amount : Option (List Char)
  amount_in_words : Option (List Char)

/-- The row built for one surviving segment (`extract_multivendor_pdf.py`
lines 194–211).  `inv` is the already-extracted invoice value.  The
captures of `Total\s*CGST\s*([\d]+\.\d{2})` are never empty strings, so
Python's `if cgst and sgst` is exactly the double-`some` test. -/
def mkSwiggyRow (pdf_name : String) (b : List Char) (inv : List Char) : SwiggyRow :=
  let idate := ef1 P_swDate b
  let billing := clean_address (ef1 P_custAddr b)
  { srcField := pdf_name
    invoice_number := ef1 P_swInvNo b
    order_number := ef1 P_swOrd b
    invoice_date := idate
    order_date := idate
    seller_name := ef1 P_swSellerName b
    seller_gst := ef1 P_swGST b
    fssai_license := ef1 P_swFSSAI b
    billing_address := billing
    place_of_delivery := billing
    total_tax :=
      match ef1 P_totCGST b, ef1 P_totSGST b with
      | some c, some s => some (pyFloatCents c + pyFloatCents s)
      | _, _ => none
    total_amount := some inv
    amount_in_words := clean_amount_in_words (ef1 P_amtWords b) }

/-- The per-segment body of the `for b in blocks` loop
(`extract_multivendor_pdf.py` lines 190–212): `none` when the segment is
discarded (`if not inv or inv in ("0", "00"): continue`). -/
def processBlock (pdf_name : String) (b : List Char) : Option SwiggyRow :=
  match ef1 P_invVal b with
  | none => none
  | some inv =>
    if inv == [] || inv == ("0".data) || inv == ("00".data) then none
    else some (mkSwiggyRow pdf_name b inv)

/-- The `re.split(r"\bTAX\s+INVOICE\b", text, flags=re.I)`
(`extract_multivendor_pdf.py` line 189). -/
def swiggyBlocks (text : List Char) : List (List Char) := reSplit P_anchor text

/-- The `extract_swiggy` (`extract_multivendor_pdf.py` lines 187–213). -/
def extract_swiggy (text : List Char) (pdf_name : String) : List SwiggyRow :=
  (swiggyBlocks text).filterMap (processBlock pdf_name)

/-- The survival condition of a segment, as the code implements it. -/
def swiggyKeep (b : List Char) : Bool :=
  match ef1 P_invVal b with
  | none => false
  | some inv => !(inv == [] || inv == ("0".data) || inv == ("00".data))

/-- A segment "contains the invoice-value marker": the marker pattern
matches somewhere in it. -/
def hasInvoiceValueMarker (b : List Char) : Bool := (reSearch P_invVal b).isSome

/-!  ## Schema alignment (extract_pdf_data.py) -/

/-- A Python dict from column name to cell, in insertion order. -/
abbrev Dict := List (String × Option (List Char))

/-- Dict lookup: `row[k]` if present. -/
def dget (d : Dict) (k : String) : Option (Option (List Char)) :=
  (d.find? (fun kv => kv.1 == k)).map Prod.snd

/-- Dict assignment `row[k] = v`: update in place, else append. -/
def dset (d : Dict) (k : String) (v : Option (List Char)) : Dict :=
  if d.any (fun kv => kv.1 == k) then
    d.map (fun kv => if kv.1 == k then (kv.1, v) else kv)
  else d ++ [(k, v)]

/-- The `row = {col: None for col in template_columns}`
(`extract_pdf_data.py` line 151). -/
def initRow (schema : List String) : Dict := schema.map (fun c => (c, none))

/-- The row-level effect of `df.reindex(columns=template_columns)`
(`extract_pdf_data.py` line 179): one cell per schema column, in schema
order; a column absent from the row becomes the explicit empty marker
(pandas `NaN`, modelled as `none`), and row keys outside the schema are
dropped. -/
def alignRow (schema : List String) (row : Dict) : Dict :=
  schema.map (fun c => (c, (dget row c).getD none))

/-!  ## Text normalizers (OCR scripts) -/

/-- The character map underlying
`text.replace("—", "-").replace("–", "-")`. -/
def dashChar (c : Char) : Char := if c == '—' || c == '–' then '-' else c

/-- The `text.replace("—", "-").replace("–", "-")` — both replaced substrings
are single characters, so this is a character map. -/
def dashFix (t : List Char) : List Char := t.map dashChar

/-- Worker for `re.sub(r"\s+", " ", text)`: `pw` records whether the
previous character was whitespace (i.e. we are inside a run that has
already emitted its single space). -/
def collapseWSGo (pw : Bool) : List Char → List Char
  | [] => []
  | c :: rest =>
    if pyWS c then
      if pw then collapseWSGo true rest else ' ' :: collapseWSGo true rest
    else c :: collapseWSGo false rest

/-- The `re.sub(r"\s+", " ", text)`: every maximal whitespace run becomes a
single space. -/
def collapseWS (l : List Char) : List Char := collapseWSGo false l

/-- The `normalize` of `extract_invoice_ocr.py` (lines 13–16). -/
def normalize (t : List Char) : List Char := collapseWS (dashFix t)

/-- The `clean_text` of `extract_invoice_ocr_shape_based_FIXED.py`
(lines 15–18): `normalize` plus a final `strip()`. -/
def clean_text (t : List Char) : List Char := pyStrip (collapseWS (dashFix t))

/-!  ## Predicates used to state the claims -/

/-- Predicate for "parses as a valid decimal number": non-empty, only digits and at most
one decimal point, at least one digit (the shapes Python's `float`
accepts among the strings reachable here). -/
def parsesAsDecimal (s : List Char) : Bool :=
  !s.isEmpty && s.all (fun c => c.isDigit || c == '.') &&
    decide ((s.filter (fun c => c == '.')).length ≤ 1) && s.any Char.isDigit

/-- Tail of the amount shape: zero or more `[\d,]` characters followed by
`.` and exactly two digits. -/
def amountTail (s : List Char) : Bool :=
  match s with
  | ['.', d1, d2] => d1.isDigit && d2.isDigit
  | c :: rest => (c.isDigit || c == ',') && amountTail rest
  | _ => false

/-- The shape `[\d,]+\.\d{2}` as a whole-string predicate — the shape of
every string captured by the amount groups of the scripts' patterns. -/
def matchesAmountShape (s : List Char) : Bool :=
  match s with
  | c :: rest => (c.isDigit || c == ',') && amountTail rest
  | [] => false

/-- The `\d+\.\d{2}` with no word boundaries — the pattern named by the
spec/claim wording for the total-amount fallback (the code actually uses
`\b\d+\.\d{2}\b`, see `P_loose`). -/
def P_looseSpec : Re :=
  rcat [.rep Char.isDigit 1 none false, .lit (".".data), .rep Char.isDigit 2 (some 2) false]

/-- Stated from the claim's words, for comparison with the code: "the last
substring of the text matching `\d+\.\d{2}`". -/
def lastLooseDecimal (text : List Char) : Option (List Char) :=
  ((reFindAll P_looseSpec text).map Prod.fst).getLast?

/-- The `n` repetitions of `"a "` followed by a final `"a"`: a text of length
`2 n + 1` that contains no leading or trailing whitespace (so its
stripped length is its full length) while only `n + 1` of its characters
are non-whitespace. -/
def altAB : Nat → List Char
  | 0 => ['a']
  | n + 1 => 'a' :: ' ' :: altAB n

/-- Whitespace characters that survive the collapse are single spaces:
`okc c` says `c` is either non-whitespace or the space character. -/
def okc (c : Char) : Bool := !pyWS c || c == ' '

/-- No two adjacent whitespace characters. -/
def noAdj : List Char → Bool
  | c :: d :: rest => !(pyWS c && pyWS d) && noAdj (d :: rest)
  | _ => true

/-- Collapsed form: every whitespace character is a single space and no
two whitespace characters are adjacent — the image (and the fixed points)
of `collapseWS`. -/
def collapsedB (l : List Char) : Bool := l.all okc && noAdj l

/-!  # Helper lemmas -/

lemma extract_field_mv_all_none (text : List Char) :
    ∀ rs : List Re, (∀ q ∈ rs, reSearch q text = none) →
      extract_field_mv text rs = Except.ok none := by
  intro rs
  induction rs with
  | nil => intro _; rfl
  | cons p ps ih =>
    intro h
    have hp := h p (List.mem_cons_self p ps)
    have hps := fun q hq => h q (List.mem_cons_of_mem p hq)
    simp only [extract_field_mv, hp]
    exact ih hps

lemma extract_field_am_all_none (text : List Char) :
    ∀ rs : List Re, (∀ q ∈ rs, reSearch q text = none) →
      extract_field_am text rs = Except.ok none := by
  intro rs
  induction rs with
  | nil => intro _; rfl
  | cons p ps ih =>
    intro h
    have hp := h p (List.mem_cons_self p ps)
    have hps := fun q hq => h q (List.mem_cons_of_mem p hq)
    simp only [extract_field_am, hp]
    exact ih hps

lemma reSplitAux_interleave :
    ∀ (fuel : Nat) (r : Re) (pv : Option Char) (s : List Char),
      interleave (reSplitAux r pv s fuel).1 (reSplitAux r pv s fuel).2 = s ∧
      (reSplitAux r pv s fuel).1.length = (reSplitAux r pv s fuel).2.length + 1 := by
  intro fuel
  induction fuel with
  | zero => intro r pv s; exact ⟨rfl, rfl⟩
  | succ n ih =>
    intro r pv s
    cases hs : searchFrom r pv s with
    | none => simp [reSplitAux, hs, interleave]
    | some x =>
      obtain ⟨sk, nl, cp⟩ := x
      by_cases hz : nl = 0
      · subst hz; simp [reSplitAux, hs, interleave]
      · have h1 : (s.drop sk).drop nl = s.drop (sk + nl) := by
          rw [List.drop_drop]
        have h2 := ih r (prevAfter pv s (sk + nl)) (s.drop (sk + nl))
        simp only [reSplitAux, hs, if_neg hz, interleave]
        constructor
        · rw [h2.1, ← h1, List.append_assoc, List.take_append_drop, List.take_append_drop]
        · simp [h2.2]

/-!  # C1 -/

/-- C1 — (amended): cascade short-circuit law.  For both `extract_field`
implementations, if the first rule's pattern matches and group 1
participates, the result is that capture stripped, regardless of the
remaining rules; a match without a participating group yields the whole
match (stripped) under the amazon implementation but raises under the
multivendor/terminal implementation; if no rule matches, the result is
`None`. -/
theorem c1_cascade_short_circuit (text : List Char) (p : Re) (rules : List Re) :
    (∀ res g, reSearch p text = some res → res.caps.1 = some g →
      extract_field_mv text (p :: rules) = Except.ok (some (pyStrip g)) ∧
      extract_field_am text (p :: rules) = Except.ok (some (pyStrip g))) ∧
    (∀ res, reSearch p text = some res → res.caps = (none, none) →
      extract_field_am text (p :: rules) = Except.ok (some (pyStrip res.matched)) ∧
      extract_field_mv text (p :: rules) = Except.error ()) ∧
    ((∀ q ∈ p :: rules, reSearch q text = none) →
      extract_field_mv text (p :: rules) = Except.ok none ∧
      extract_field_am text (p :: rules) = Except.ok none) := by
  refine ⟨?_, ?_, ?_⟩
  · intro res g hs hg
    constructor
    · simp [extract_field_mv, hs, hg]
    · have h1 : 1 ≤ lastIdx res.caps := by
        unfold lastIdx
        split
        · omega
        · simp [hg]
      simp [extract_field_am, hs, hg, h1]
  · intro res hs hc
    have h0 : lastIdx res.caps = 0 := by simp [lastIdx, hc]
    constructor
    · simp [extract_field_am, hs, h0]
    · simp [extract_field_mv, hs, hc]
  · intro h
    exact ⟨extract_field_mv_all_none text _ h, extract_field_am_all_none text _ h⟩

/-- C1 witness —: a concrete two-rule cascade whose first rule matches
with a capture. -/
theorem c1_witness :
    extract_field_mv ("Invoice Value 42".data) [P_invVal, P_swOrd] =
      Except.ok (some (pyStrip ("42".data))) ∧
    extract_field_am ("Invoice Value 42".data) [P_invVal, P_swOrd] =
      Except.ok (some (pyStrip ("42".data))) :=
  (c1_cascade_short_circuit ("Invoice Value 42".data) P_invVal [P_swOrd]).1
    ⟨[], ("Invoice Value 42".data), (some ("42".data), none)⟩ ("42".data) (by rfl) (by rfl)

/-- C1 counterexample —: under the multivendor/terminal `extract_field`,
a rule without a capture group whose pattern matches does *not* return the
whole match (as the claim states); Python raises `IndexError` from
`m.group(1)`, modelled as `Except.error`. -/
theorem c1_counterexample :
    (reSearch (Re.lit ("TAX INVOICE".data)) ("x TAX INVOICE y".data)).map SRes.matched =
      some ("TAX INVOICE".data) ∧
    extract_field_mv ("x TAX INVOICE y".data) [Re.lit ("TAX INVOICE".data)] =
      Except.error () ∧
    extract_field_mv ("x TAX INVOICE y".data) [Re.lit ("TAX INVOICE".data)] ≠
      Except.ok (some (pyStrip ("TAX INVOICE".data))) := by
  refine ⟨by rfl, by rfl, ?_⟩
  intro h
  rw [show extract_field_mv ("x TAX INVOICE y".data) [Re.lit ("TAX INVOICE".data)] =
    Except.error () from rfl] at h
  exact Except.noConfusion h

/-!  # C4 -/

/-- C4 —: Schema-Aligner totality.  `alignRow` always produces exactly
`schema.length` cells, whose keys are the schema in schema order; a
column in the schema is present with value `(dget row c).getD none` (the
explicit empty marker when the record lacks it), and a key outside the
schema never appears. -/
theorem c4_schema_aligner_total (schema : List String) (row : Dict) (c : String) :
    (alignRow schema row).length = schema.length ∧
    (alignRow schema row).map Prod.fst = schema ∧
    (c ∈ schema →
      (alignRow schema row).find? (fun kv => kv.1 == c) =
        some (c, (dget row c).getD none)) ∧
    (c ∉ schema → (alignRow schema row).find? (fun kv => kv.1 == c) = none) := by
  refine ⟨by simp [alignRow],
    by simp only [alignRow, List.map_map]; exact List.map_id' schema, ?_, ?_⟩
  · intro hc
    induction schema with
    | nil => cases hc
    | cons a as ih =>
      by_cases h : a = c
      · subst h
        simp [alignRow, List.find?]
      · have hmem : c ∈ as := by
          cases List.mem_cons.1 hc with
          | inl h1 => exact absurd h1.symm h
          | inr h2 => exact h2
        have hbeq : (a == c) = false := beq_eq_false_iff_ne.2 h
        simpa [alignRow, List.find?, hbeq] using ih hmem
  · intro hc
    induction schema with
    | nil => rfl
    | cons a as ih =>
      have h : a ≠ c := fun h1 => hc (h1 ▸ List.mem_cons_self a as)
      have hmem : c ∉ as := fun h1 => hc (List.mem_cons_of_mem a h1)
      have hbeq : (a == c) = false := beq_eq_false_iff_ne.2 h
      simpa [alignRow, List.find?, hbeq] using ih hmem

/-- C4 witness —: a two-column schema against a row that misses one
schema column and carries one extra field. -/
theorem c4_witness :
    (alignRow ["a", "b"] (dset (initRow ["b"]) ("z") (some ("y".data)))).find?
      (fun kv => kv.1 == "a") = some ("a", none) ∧
    (alignRow ["a", "b"] (dset (initRow ["b"]) ("z") (some ("y".data)))).find?
      (fun kv => kv.1 == "z") = none := by
  constructor
  · have h := (c4_schema_aligner_total ["a", "b"]
      (dset (initRow ["b"]) ("z") (some ("y".data))) ("a")).2.2.1 (by decide)
    simpa using h
  · exact (c4_schema_aligner_total ["a", "b"]
      (dset (initRow ["b"]) ("z") (some ("y".data))) ("z")).2.2.2 (by decide)

/-!  # C10 -/

/-- C10 —: a swiggy segment whose captured invoice value is `"0"` or
`"00"` contains the invoice-value marker and is nonetheless discarded —
the discard condition is strictly stronger than absence of the marker. -/
theorem c10_zero_value_segment_discarded (name : String) (b : List Char)
    (h : ef1 P_invVal b = some ("0".data) ∨ ef1 P_invVal b = some ("00".data)) :
    hasInvoiceValueMarker b = true ∧ processBlock name b = none := by
  constructor
  · have hsome : (reSearch P_invVal b).isSome = true := by
      rcases h with h | h <;>
      · unfold ef1 at h
        cases hs : reSearch P_invVal b
        · rw [hs] at h; simp at h
        · simp [hs]
    exact hsome
  · rcases h with h | h <;>
    · unfold processBlock
      rw [h]
      rfl

/-- C10 witness —: a concrete segment carrying `Invoice Value 0`. -/
theorem c10_witness :
    hasInvoiceValueMarker (" Invoice Value 0".data) = true ∧
    processBlock ("d.pdf") (" Invoice Value 0".data) = none :=
  c10_zero_value_segment_discarded ("d.pdf") (" Invoice Value 0".data) (Or.inl (by rfl))

/-!  # C8 -/

/-- C8 — (amended): the splitter *removes* the anchor and does not
re-prepend it.  The segments handed to per-segment extraction are exactly
the pieces between the anchor matches (the preamble before the first
anchor included): interleaving them with the removed anchor occurrences
reconstructs the original text, and there is exactly one more segment
than removed anchors. -/
theorem c8_split_removes_anchor (text : List Char) :
    swiggyBlocks text = (reSplitAux P_anchor none text (text.length + 1)).1 ∧
    interleave (reSplitAux P_anchor none text (text.length + 1)).1
      (reSplitAux P_anchor none text (text.length + 1)).2 = text ∧
    (reSplitAux P_anchor none text (text.length + 1)).1.length =
      (reSplitAux P_anchor none text (text.length + 1)).2.length + 1 :=
  ⟨rfl, (reSplitAux_interleave (text.length + 1) P_anchor none text).1,
    (reSplitAux_interleave (text.length + 1) P_anchor none text).2⟩

/-- C8 counterexample —: after splitting, no segment begins with the
anchor label — the claim's re-prepending does not happen in the code. -/
theorem c8_counterexample :
    swiggyBlocks ("x TAX INVOICE Invoice Value 5".data) =
      [("x ".data), (" Invoice Value 5".data)] ∧
    ("TAX INVOICE".data).isPrefixOf (" Invoice Value 5".data) = false ∧
    ("TAX INVOICE".data).isPrefixOf ("x ".data) = false :=
  ⟨by rfl, by rfl, by rfl⟩

/-!  # C6 -/

/-- C6 — (amended): total-amount resolution cascade.  The labelled
`Invoice Value`/`TOTAL Amount`/`Grand Total` number (normalized) wins
whenever the labelled pattern matches; only otherwise is the result the
last *word-bounded* `\b\d+\.\d{2}\b` match of the text (`none` when there
is none) — not the last bare `\d+\.\d{2}` substring the claim describes. -/
theorem c6_total_amount_cascade (text : List Char) :
    (∀ res, reSearch P_labeledTotal text = some res →
      extract_total_amount text = normalize_number (some (res.caps.2.getD []))) ∧
    (reSearch P_labeledTotal text = none →
      extract_total_amount text = ((reFindAll P_loose text).map Prod.fst).getLast?) := by
  constructor
  · intro res hs
    simp [extract_total_amount, hs]
  · intro hs
    simp [extract_total_amount, hs]

/-- C6 witness —: one text per branch of the cascade. -/
theorem c6_witness :
    extract_total_amount ("Grand Total: 99.50".data) = some ("99.50".data) ∧
    extract_total_amount ("abc 12.34 xx 56.78".data) =
      ((reFindAll P_loose ("abc 12.34 xx 56.78".data)).map Prod.fst).getLast? := by
  constructor
  · have h := (c6_total_amount_cascade ("Grand Total: 99.50".data)).1
      ⟨[], ("Grand Total: 99.50".data), (some ("Grand Total".data), some ("99.50".data))⟩
      (by rfl)
    simpa using h
  · exact (c6_total_amount_cascade ("abc 12.34 xx 56.78".data)).2 (by rfl)

/-- C6 counterexample —: on `"Total cost 1.234"` no labelled rule
matches and the code returns `None`, although the text does contain a
substring matching `\d+\.\d{2}` (namely `"1.23"`), which the claim says
would be returned. -/
theorem c6_counterexample :
    reSearch P_labeledTotal ("Total cost 1.234".data) = none ∧
    extract_total_amount ("Total cost 1.234".data) = none ∧
    lastLooseDecimal ("Total cost 1.234".data) = some ("1.23".data) :=
  ⟨by rfl, by rfl, by rfl⟩

/-!  # C5 -/

/-- C5 — (amended): acquisition fallback policy.  Native text is used
alone exactly when its *stripped length* (not its count of non-whitespace
characters) reaches the 200 threshold; below the threshold the OCR page
outputs are appended in page order after the native text; a native
failure is swallowed (empty text) and never by itself raises — the result
is then exactly the OCR concatenation. -/
theorem c5_acquisition_fallback (ps : List (Option (List Char)))
    (imgs : List (List Char)) (ocr : Except Unit (List (List Char))) :
    (200 ≤ (pyStrip (concatPages ps)).length →
      extract_text (Except.ok ps) ocr = Except.ok (concatPages ps)) ∧
    ((pyStrip (concatPages ps)).length < 200 →
      extract_text (Except.ok ps) (Except.ok imgs) =
        Except.ok (concatPages ps ++ concatOcr imgs)) ∧
    extract_text (Except.error ()) (Except.ok imgs) = Except.ok (concatOcr imgs) := by
  refine ⟨?_, ?_, ?_⟩
  · intro h
    have hc : ¬ ((pyStrip (concatPages ps)).length < 200) := Nat.not_lt.mpr h
    simp only [extract_text]
    rw [if_neg hc]
  · intro h
    simp only [extract_text]
    rw [if_pos h]
  · simp only [extract_text]
    rw [if_pos (by decide : (pyStrip ([] : List Char)).length < 200)]
    simp [concatOcr]

/-- C5 witness —: a 200-character native page needs no OCR (even a
failing OCR collaborator is never consulted); an empty native layer falls
back to OCR in page order; a swallowed native failure with working OCR
yields exactly the OCR text. -/
theorem c5_witness :
    extract_text (Except.ok [some (List.replicate 200 'b')]) (Except.error ()) =
      Except.ok (concatPages [some (List.replicate 200 'b')]) ∧
    extract_text (Except.ok []) (Except.ok [("p1".data), ("p2".data)]) =
      Except.ok (concatPages [] ++ concatOcr [("p1".data), ("p2".data)]) ∧
    extract_text (Except.error ()) (Except.ok [("p1".data)]) =
      Except.ok (concatOcr [("p1".data)]) :=
  ⟨(c5_acquisition_fallback [some (List.replicate 200 'b')] [] (Except.error ())).1
      (by decide),
   (c5_acquisition_fallback [] [("p1".data), ("p2".data)]
      (Except.ok [("p1".data), ("p2".data)])).2.1 (by decide),
   (c5_acquisition_fallback [] [("p1".data)] (Except.ok [("p1".data)])).2.2⟩

/-- C5 counterexample —: a native page of 201 characters of which only
101 are non-whitespace.  The claim's reading (fewer than 200
non-whitespace characters ⇒ fall back to OCR) demands the OCR output be
appended, but the code keeps the native text alone because its stripped
length is 201 ≥ 200. -/
theorem c5_counterexample :
    countNonWS (concatPages [some (altAB 100)]) < 200 ∧
    extract_text (Except.ok [some (altAB 100)]) (Except.ok [("OCRTEXT".data)]) =
      Except.ok (concatPages [some (altAB 100)]) ∧
    concatPages [some (altAB 100)] ≠
      concatPages [some (altAB 100)] ++ concatOcr [("OCRTEXT".data)] := by
  refine ⟨by decide, by rfl, ?_⟩
  intro h
  exact absurd (congrArg List.length h) (by decide)

/-!  # C3 -/

lemma processBlock_isSome (name : String) (b : List Char) :
    (processBlock name b).isSome = swiggyKeep b := by
  unfold processBlock swiggyKeep
  cases h : ef1 P_invVal b with
  | none => rfl
  | some inv =>
    dsimp only
    by_cases hc : (inv == [] || inv == ("0".data) || inv == ("00".data)) = true
    · rw [if_pos hc, hc]
      rfl
    · rw [if_neg hc]
      rw [Bool.not_eq_true] at hc
      rw [hc]
      rfl

lemma filterMap_keep_length (name : String) :
    ∀ bs : List (List Char),
      (bs.filterMap (processBlock name)).length = (bs.filter swiggyKeep).length := by
  intro bs
  induction bs with
  | nil => rfl
  | cons b bs ih =>
    cases h : processBlock name b with
    | none =>
      have hk : swiggyKeep b = false := by
        rw [← processBlock_isSome name b, h]; rfl
      simp [List.filterMap_cons, List.filter_cons, h, hk, ih]
    | some row =>
      have hk : swiggyKeep b = true := by
        rw [← processBlock_isSome name b, h]; rfl
      simp [List.filterMap_cons, List.filter_cons, h, hk, ih]

lemma swiggyKeep_marker {b : List Char} (h : swiggyKeep b = true) :
    hasInvoiceValueMarker b = true := by
  unfold swiggyKeep at h
  unfold hasInvoiceValueMarker
  unfold ef1 at h
  cases hs : reSearch P_invVal b
  · rw [hs] at h; simp at h
  · simp [hs]

/-- C3 — (amended): record-count law.  The number of swiggy records
equals the number of split segments satisfying the code's survival
condition `swiggyKeep` — the segment's invoice-value capture exists and is
not `"0"`/`"00"`.  `swiggyKeep` implies the claim's weaker "contains the
invoice-value marker", so records never exceed marker-bearing segments,
but (C10) the two conditions differ. -/
theorem c3_record_count (text : List Char) (name : String) (b : List Char) :
    (extract_swiggy text name).length =
      ((swiggyBlocks text).filter swiggyKeep).length ∧
    (swiggyKeep b = true → hasInvoiceValueMarker b = true) :=
  ⟨filterMap_keep_length name (swiggyBlocks text), fun h => swiggyKeep_marker h⟩

/-- C3 witness —: the record count matches the surviving-segment count
on a concrete two-invoice document, and a concrete surviving segment
carries the marker. -/
theorem c3_witness :
    (extract_swiggy ("TAX INVOICE Invoice Value 100 TAX INVOICE Invoice Value 7".data)
      ("d.pdf")).length =
      ((swiggyBlocks ("TAX INVOICE Invoice Value 100 TAX INVOICE Invoice Value 7".data)).filter
        swiggyKeep).length ∧
    hasInvoiceValueMarker ("Invoice Value 100".data) = true :=
  ⟨(c3_record_count ("TAX INVOICE Invoice Value 100 TAX INVOICE Invoice Value 7".data)
      ("d.pdf") []).1,
   (c3_record_count [] ("d.pdf") ("Invoice Value 100".data)).2 (by rfl)⟩

/-- C3 counterexample —: a document with two anchor segments both
containing the invoice-value marker yields only one record, because the
second segment's captured value is `"0"`; the claim's count (segments
containing the marker) is 2. -/
theorem c3_counterexample :
    (extract_swiggy ("TAX INVOICE Invoice Value 100 TAX INVOICE Invoice Value 0".data)
      ("d.pdf")).length = 1 ∧
    ((swiggyBlocks ("TAX INVOICE Invoice Value 100 TAX INVOICE Invoice Value 0".data)).filter
      hasInvoiceValueMarker).length = 2 :=
  ⟨by rfl, by rfl⟩

/-!  # C2 -/

/-- C2 — (amended): tax aggregation.  The terminal/amazon extractors
return the sum of *all* matched CGST/SGST/IGST line amounts — when both
families are present the result is their combined sum, not the CGST+SGST
sum alone — and `None` only when no tax line matches.  The swiggy
extractor sets `total_tax` to CGST+SGST exactly when both `Total CGST`
and `Total SGST` capture, and never consults IGST. -/
theorem c2_tax_aggregation (text b : List Char) (name : String) (inv : List Char) :
    (reFindAll P_taxTerm text = [] → extract_tax text = none) ∧
    (reFindAll P_taxTerm text ≠ [] →
      extract_tax text = some (sumTaxCents (reFindAll P_taxTerm text))) ∧
    (reFindAll P_taxAmz text = [] → amazonTaxTotal text = none) ∧
    (reFindAll P_taxAmz text ≠ [] →
      amazonTaxTotal text = some (sumTaxCents (reFindAll P_taxAmz text))) ∧
    (∀ cg sg, ef1 P_totCGST b = some cg → ef1 P_totSGST b = some sg →
      (mkSwiggyRow name b inv).total_tax = some (pyFloatCents cg + pyFloatCents sg)) ∧
    ((ef1 P_totCGST b = none ∨ ef1 P_totSGST b = none) →
      (mkSwiggyRow name b inv).total_tax = none) := by
  refine ⟨?_, ?_, ?_, ?_, ?_, ?_⟩
  · intro h; simp [extract_tax, h]
  · intro h; simp [extract_tax, List.isEmpty_iff, h]
  · intro h; simp [amazonTaxTotal, h]
  · intro h; simp [amazonTaxTotal, List.isEmpty_iff, h]
  · intro cg sg hc hsg
    simp [mkSwiggyRow, hc, hsg]
  · intro h
    rcases h with h | h
    · simp [mkSwiggyRow, h]
    · cases hc : ef1 P_totCGST b <;> simp [mkSwiggyRow, hc, h]

/-- C2 witness —: the IGST-only path, the no-tax path and the swiggy
CGST+SGST path at concrete inputs. -/
theorem c2_witness :
    extract_tax ("IGST 25.00".data) =
      some (sumTaxCents (reFindAll P_taxTerm ("IGST 25.00".data))) ∧
    extract_tax ("no tax here".data) = none ∧
    (mkSwiggyRow ("d") ("Total CGST 5.25 Total SGST 5.25".data) ("99".data)).total_tax =
      some (pyFloatCents ("5.25".data) + pyFloatCents ("5.25".data)) ∧
    (mkSwiggyRow ("d") ("IGST 25.00".data) ("99".data)).total_tax = none :=
  ⟨(c2_tax_aggregation ("IGST 25.00".data) [] ("d") []).2.1 (by decide),
   (c2_tax_aggregation ("no tax here".data) [] ("d") []).1 (by rfl),
   (c2_tax_aggregation [] ("Total CGST 5.25 Total SGST 5.25".data) ("d")
      ("99".data)).2.2.2.2.1 ("5.25".data) ("5.25".data) (by rfl) (by rfl),
   (c2_tax_aggregation [] ("IGST 25.00".data) ("d") ("99".data)).2.2.2.2.2
      (Or.inl (by rfl))⟩

/-- C2 counterexample —: with both tax families present the terminal
extractor returns 45.00 (4500 cents) — the grand sum including IGST — not
the 20.00 CGST+SGST sum the claim requires; and the swiggy extractor
leaves `total_tax` unset on an IGST-only segment instead of using the
IGST value. -/
theorem c2_counterexample :
    extract_tax ("CGST 10.00 SGST 10.00 IGST 25.00".data) = some 4500 ∧
    extract_tax ("CGST 10.00 SGST 10.00 IGST 25.00".data) ≠ some 2000 ∧
    (mkSwiggyRow ("d") ("IGST 25.00 x".data) ("99".data)).total_tax = none := by
  refine ⟨by decide, by decide, by rfl⟩

/-!  # C7 -/

lemma isDigit_ne {x y : Char} (h : x.isDigit = true) (hy : y.isDigit = false) :
    (x == y) = false := by
  cases hq : x == y
  · rfl
  · exfalso
    rw [show x = y from eq_of_beq hq, hy] at h
    exact Bool.noConfusion h

lemma pyWS_eq_false_of_isDigit {c : Char} (h : c.isDigit = true) : pyWS c = false := by
  cases hw : pyWS c
  · rfl
  · exfalso
    simp only [pyWS, Bool.or_eq_true, beq_iff_eq] at hw
    rcases hw with ((((h1 | h1) | h1) | h1) | h1) | h1 <;> subst h1 <;>
      exact absurd h (by decide)

lemma keep_digit {c : Char} (h : c.isDigit = true) :
    (!(c == '₹' || c == ',' || pyWS c)) = true := by
  rw [isDigit_ne h (by decide), isDigit_ne h (by decide), pyWS_eq_false_of_isDigit h]
  rfl

lemma amountTail_decomp : ∀ s : List Char, amountTail s = true →
    ∃ A d1 d2, s = A ++ ['.', d1, d2] ∧ (∀ c ∈ A, (c.isDigit || c == ',') = true) ∧
      d1.isDigit = true ∧ d2.isDigit = true := by
  intro s
  induction s using amountTail.induct with
  | case1 d1 d2 =>
    intro h
    rw [amountTail.eq_1, Bool.and_eq_true] at h
    exact ⟨[], d1, d2, rfl, fun c hc => absurd hc (by simp), h.1, h.2⟩
  | case2 c rest hne ih =>
    intro h
    rw [amountTail.eq_2 c rest hne, Bool.and_eq_true] at h
    obtain ⟨hc, ht⟩ := h
    obtain ⟨A, d1, d2, hA, hall, h1, h2⟩ := ih ht
    refine ⟨c :: A, d1, d2, by rw [hA]; rfl, ?_, h1, h2⟩
    intro x hx
    cases hx with
    | head => exact hc
    | tail _ hx2 => exact hall x hx2
  | case3 t ht1 ht2 =>
    intro h
    rw [amountTail.eq_3 t ht1 ht2] at h
    exact Bool.noConfusion h

lemma shape_strip_parses (v : List Char) (h : matchesAmountShape v = true) :
    parsesAsDecimal (stripMoneyChars v) = true := by
  cases v with
  | nil => exact absurd h (by decide)
  | cons c rest =>
    simp only [matchesAmountShape] at h
    rw [Bool.and_eq_true] at h
    obtain ⟨hc, ht⟩ := h
    obtain ⟨A, d1, d2, hA, hall, h1, h2⟩ := amountTail_decomp rest ht
    subst hA
    have hv : c :: (A ++ ['.', d1, d2]) = (c :: A) ++ ['.', d1, d2] := rfl
    rw [hv]
    have hallB : ∀ x ∈ c :: A, (x.isDigit || x == ',') = true := by
      intro x hx
      cases hx with
      | head => exact hc
      | tail _ hx2 => exact hall x hx2
    simp only [stripMoneyChars, List.filter_append]
    have htail : List.filter (fun x => !(x == '₹' || x == ',' || pyWS x)) ['.', d1, d2] =
        ['.', d1, d2] := by
      simp only [List.filter, keep_digit h1, keep_digit h2]
      rfl
    rw [htail]
    have hE : ∀ x ∈ List.filter (fun x => !(x == '₹' || x == ',' || pyWS x)) (c :: A),
        x.isDigit = true := by
      intro x hx
      obtain ⟨hmem, hkeep⟩ := List.mem_filter.1 hx
      have hdc := hallB x hmem
      rw [Bool.or_eq_true] at hdc
      cases hdc with
      | inl hd => exact hd
      | inr hcomma =>
        exfalso
        rw [show x = ',' from eq_of_beq hcomma] at hkeep
        exact absurd hkeep (by decide)
    generalize hgen : List.filter (fun x => !(x == '₹' || x == ',' || pyWS x)) (c :: A) = E at hE
    unfold parsesAsDecimal
    simp only [Bool.and_eq_true]
    refine ⟨⟨⟨?_, ?_⟩, ?_⟩, ?_⟩
    · simp [List.isEmpty_iff]
    · rw [List.all_append, Bool.and_eq_true]
      constructor
      · exact List.all_eq_true.2 (fun x hx => by
          rw [Bool.or_eq_true]
          exact Or.inl (hE x hx))
      · simp [h1, h2]
    · rw [decide_eq_true_iff, List.filter_append]
      have hEnil : List.filter (fun x => x == '.') E = [] :=
        List.filter_eq_nil_iff.2 (fun x hx hdot => by
          rw [isDigit_ne (hE x hx) (by decide)] at hdot
          exact Bool.noConfusion hdot)
      rw [hEnil]
      have hT : List.filter (fun x => x == '.') ['.', d1, d2] = ['.'] := by
        simp only [List.filter, isDigit_ne h1 (by decide : ('.' : Char).isDigit = false),
          isDigit_ne h2 (by decide : ('.' : Char).isDigit = false)]
        rfl
      rw [hT]
      simp
    · exact List.any_eq_true.2 ⟨d1, by simp, h1⟩

/-- C7 — (amended): for every non-empty input, both `normalize_number`
implementations produce a string free of the currency sign, commas and
whitespace; and when the input has the shape `[\d,]+\.\d{2}` captured by
the amount patterns (which is where the scripts apply the function), the
result parses as a valid decimal number.  For arbitrary non-numeric
input the result need not be numeric — the unrestricted claim fails, see
the counterexample. -/
theorem c7_normalize_amount (v : List Char) (hv : v ≠ []) :
    (∀ w, normalize_number (some v) = some w →
      (∀ x ∈ w, x ≠ '₹' ∧ x ≠ ',' ∧ pyWS x = false) ∧
      (matchesAmountShape v = true → parsesAsDecimal w = true)) ∧
    (∀ w, normalize_number_am (some v) = some w →
      (∀ x ∈ w, x ≠ '₹' ∧ x ≠ ',' ∧ pyWS x = false) ∧
      (matchesAmountShape v = true → parsesAsDecimal w = true)) := by
  have hvempty : v.isEmpty = false := List.isEmpty_eq_false.2 hv
  have hmem : ∀ x ∈ stripMoneyChars v, x ≠ '₹' ∧ x ≠ ',' ∧ pyWS x = false := by
    intro x hx
    have hkeep := (List.mem_filter.1 hx).2
    rw [Bool.not_eq_true'] at hkeep
    simp only [Bool.or_eq_false_iff, beq_eq_false_iff_ne] at hkeep
    exact ⟨hkeep.1.1, hkeep.1.2, hkeep.2⟩
  constructor
  · intro w hw
    simp [normalize_number, hvempty] at hw
    subst hw
    exact ⟨hmem, fun hs => shape_strip_parses v hs⟩
  · intro w hw
    cases hse : (stripMoneyChars v).isEmpty with
    | true =>
      exfalso
      simp [normalize_number_am, hvempty, hse] at hw
    | false =>
      simp [normalize_number_am, hvempty, hse] at hw
      subst hw
      exact ⟨hmem, fun hs => shape_strip_parses v hs⟩

/-- C7 witness —: a concrete thousands-separated rupee amount. -/
theorem c7_witness :
    (∀ x ∈ stripMoneyChars ("1,234.56".data), x ≠ '₹' ∧ x ≠ ',' ∧ pyWS x = false) ∧
    parsesAsDecimal (stripMoneyChars ("1,234.56".data)) = true := by
  have h := (c7_normalize_amount ("1,234.56".data) (by decide)).1
    (stripMoneyChars ("1,234.56".data)) (by rfl)
  exact ⟨h.1, h.2 (by rfl)⟩

/-- C7 counterexample —: the non-empty input `"abc"` passes through both
implementations unchanged, and the result does not parse as a decimal
number — the claim's "parses as a valid decimal number" fails for
arbitrary non-empty input. -/
theorem c7_counterexample :
    normalize_number (some ("abc".data)) = some ("abc".data) ∧
    normalize_number_am (some ("abc".data)) = some ("abc".data) ∧
    parsesAsDecimal ("abc".data) = false :=
  ⟨by rfl, by rfl, by rfl⟩

/-!  # C9 -/

lemma dashChar_idem (c : Char) : dashChar (dashChar c) = dashChar c := by
  unfold dashChar
  by_cases h : (c == '—' || c == '–') = true
  · rw [if_pos h]
    rfl
  · rw [if_neg h, if_neg h]

lemma dashChar_of_ws {c : Char} (h : pyWS c = true) : dashChar c = c := by
  unfold dashChar
  by_cases hd : (c == '—' || c == '–') = true
  · exfalso
    rw [Bool.or_eq_true] at hd
    cases hd with
    | inl h1 => rw [eq_of_beq h1] at h; exact absurd h (by decide)
    | inr h1 => rw [eq_of_beq h1] at h; exact absurd h (by decide)
  · rw [if_neg hd]

lemma pyWS_dashChar (c : Char) : pyWS (dashChar c) = pyWS c := by
  by_cases h : (c == '—' || c == '–') = true
  · rw [show dashChar c = '-' from by unfold dashChar; rw [if_pos h]]
    rw [Bool.or_eq_true] at h
    cases h with
    | inl h1 => rw [eq_of_beq h1]; decide
    | inr h1 => rw [eq_of_beq h1]; decide
  · rw [show dashChar c = c from by unfold dashChar; rw [if_neg h]]

lemma dashFix_idem (l : List Char) : dashFix (dashFix l) = dashFix l := by
  induction l with
  | nil => rfl
  | cons c t ih =>
    simp only [dashFix, List.map_cons] at *
    rw [dashChar_idem, ih]

lemma collapseWSGo_dashFix (pw : Bool) (l : List Char) :
    dashFix (collapseWSGo pw l) = collapseWSGo pw (dashFix l) := by
  induction l generalizing pw with
  | nil => rfl
  | cons c t ih =>
    by_cases h : pyWS c = true
    · have h2 : pyWS (dashChar c) = true := by rw [pyWS_dashChar]; exact h
      cases pw with
      | true =>
        rw [show collapseWSGo true (c :: t) = collapseWSGo true t from by
          simp [collapseWSGo, h]]
        rw [show collapseWSGo true (dashFix (c :: t)) = collapseWSGo true (dashFix t) from by
          simp only [dashFix, List.map_cons]
          simp [collapseWSGo, h2]]
        exact ih true
      | false =>
        rw [show collapseWSGo false (c :: t) = ' ' :: collapseWSGo true t from by
          simp [collapseWSGo, h]]
        rw [show collapseWSGo false (dashFix (c :: t)) =
            ' ' :: collapseWSGo true (dashFix t) from by
          simp only [dashFix, List.map_cons]
          simp [collapseWSGo, h2]]
        rw [show dashFix (' ' :: collapseWSGo true t) =
            dashChar ' ' :: dashFix (collapseWSGo true t) from rfl]
        rw [show dashChar ' ' = ' ' from by decide, ih true]
    · have h' : pyWS c = false := by rwa [Bool.not_eq_true] at h
      have h2 : pyWS (dashChar c) = false := by rw [pyWS_dashChar]; exact h'
      rw [show collapseWSGo pw (c :: t) = c :: collapseWSGo false t from by
        simp [collapseWSGo, h']]
      rw [show collapseWSGo pw (dashFix (c :: t)) =
          dashChar c :: collapseWSGo false (dashFix t) from by
        simp only [dashFix, List.map_cons]
        simp [collapseWSGo, h2]]
      rw [show dashFix (c :: collapseWSGo false t) =
          dashChar c :: dashFix (collapseWSGo false t) from rfl]
      rw [ih false]

lemma dashFix_collapseWS (l : List Char) :
    dashFix (collapseWS l) = collapseWS (dashFix l) :=
  collapseWSGo_dashFix false l

lemma collapseWSGo_all_okc (pw : Bool) (l : List Char) :
    (collapseWSGo pw l).all okc = true := by
  induction l generalizing pw with
  | nil => rfl
  | cons c t ih =>
    by_cases h : pyWS c = true
    · cases pw <;> simp [collapseWSGo, h, ih, okc]
    · have h' : pyWS c = false := by rwa [Bool.not_eq_true] at h
      simp [collapseWSGo, h', ih, okc]

lemma collapseWSGo_true_head (l : List Char) :
    ∀ x, (collapseWSGo true l).head? = some x → pyWS x = false := by
  induction l with
  | nil => intro x hx; exact absurd hx (by simp [collapseWSGo])
  | cons c t ih =>
    intro x hx
    by_cases h : pyWS c = true
    · rw [show collapseWSGo true (c :: t) = collapseWSGo true t from by
        simp [collapseWSGo, h]] at hx
      exact ih x hx
    · have h' : pyWS c = false := by rwa [Bool.not_eq_true] at h
      rw [show collapseWSGo true (c :: t) = c :: collapseWSGo false t from by
        simp [collapseWSGo, h']] at hx
      simp only [List.head?_cons, Option.some.injEq] at hx
      subst hx
      exact h'

lemma noAdj_cons_of (c : Char) (z : List Char)
    (hz : noAdj z = true)
    (hhead : ∀ d, z.head? = some d → (pyWS c && pyWS d) = false) :
    noAdj (c :: z) = true := by
  cases z with
  | nil => rfl
  | cons d r =>
    have hd := hhead d rfl
    simp [noAdj, hd, hz]

lemma collapseWSGo_noAdj (pw : Bool) (l : List Char) :
    noAdj (collapseWSGo pw l) = true := by
  induction l generalizing pw with
  | nil => rfl
  | cons c t ih =>
    by_cases h : pyWS c = true
    · cases pw with
      | true =>
        rw [show collapseWSGo true (c :: t) = collapseWSGo true t from by
          simp [collapseWSGo, h]]
        exact ih true
      | false =>
        rw [show collapseWSGo false (c :: t) = ' ' :: collapseWSGo true t from by
          simp [collapseWSGo, h]]
        apply noAdj_cons_of
        · exact ih true
        · intro d hd
          rw [collapseWSGo_true_head t d hd]
          simp
    · have h' : pyWS c = false := by rwa [Bool.not_eq_true] at h
      rw [show collapseWSGo pw (c :: t) = c :: collapseWSGo false t from by
        simp [collapseWSGo, h']]
      apply noAdj_cons_of
      · exact ih false
      · intro d hd
        rw [h']
        simp

lemma noAdj_tail {c : Char} {z : List Char} (h : noAdj (c :: z) = true) :
    noAdj z = true := by
  cases z with
  | nil => rfl
  | cons d r =>
    simp only [noAdj, Bool.and_eq_true] at h
    exact h.2

lemma collapseWS_fix (l : List Char) (hall : l.all okc = true)
    (hadj : noAdj l = true) : collapseWS l = l := by
  unfold collapseWS
  induction l with
  | nil => rfl
  | cons c t ih =>
    rw [List.all_cons, Bool.and_eq_true] at hall
    obtain ⟨hc, ht⟩ := hall
    have hadjt := noAdj_tail hadj
    by_cases h : pyWS c = true
    · have hsp : c = ' ' := by
        unfold okc at hc
        rw [h] at hc
        simpa using hc
      have hthead : ∀ d, t.head? = some d → pyWS d = false := by
        intro d hd
        cases t with
        | nil => exact absurd hd (by simp)
        | cons d2 r =>
          simp only [List.head?_cons, Option.some.injEq] at hd
          subst hd
          simp only [noAdj, Bool.and_eq_true] at hadj
          have hpair := hadj.1
          rw [h] at hpair
          simpa using hpair
      have hgo : collapseWSGo true t = collapseWSGo false t := by
        cases t with
        | nil => rfl
        | cons d r =>
          have hd := hthead d rfl
          simp [collapseWSGo, hd]
      rw [show collapseWSGo false (c :: t) = ' ' :: collapseWSGo true t from by
        simp [collapseWSGo, h]]
      rw [hgo, ih ht hadjt, hsp]
    · have h' : pyWS c = false := by rwa [Bool.not_eq_true] at h
      rw [show collapseWSGo false (c :: t) = c :: collapseWSGo false t from by
        simp [collapseWSGo, h']]
      rw [ih ht hadjt]

lemma collapseWS_idem (l : List Char) : collapseWS (collapseWS l) = collapseWS l :=
  collapseWS_fix (collapseWS l) (collapseWSGo_all_okc false l) (collapseWSGo_noAdj false l)

lemma noAdj_append_left : ∀ (a b : List Char), noAdj (a ++ b) = true → noAdj a = true := by
  intro a
  induction a with
  | nil => intro b _; rfl
  | cons c a2 ih =>
    intro b h
    cases a2 with
    | nil => rfl
    | cons d r =>
      simp only [List.cons_append, noAdj, Bool.and_eq_true] at h ⊢
      exact ⟨h.1, ih b (by simpa using h.2)⟩

lemma noAdj_append_right : ∀ (a b : List Char), noAdj (a ++ b) = true → noAdj b = true := by
  intro a
  induction a with
  | nil => intro b h; exact h
  | cons c a2 ih =>
    intro b h
    rw [List.cons_append] at h
    exact ih b (noAdj_tail h)

lemma rstrip_append_eq (m : List Char) : ∃ t, rstrip m ++ t = m := by
  obtain ⟨t, ht⟩ := List.dropWhile_suffix (l := m.reverse) pyWS
  refine ⟨t.reverse, ?_⟩
  have h2 := congrArg List.reverse ht
  rw [List.reverse_append, List.reverse_reverse] at h2
  exact h2

lemma collapsed_parts_strip (u : List Char) (hall : u.all okc = true)
    (hadj : noAdj u = true) :
    (pyStrip u).all okc = true ∧ noAdj (pyStrip u) = true := by
  obtain ⟨p, hp⟩ := List.dropWhile_suffix (l := u) pyWS
  have hp2 : p ++ lstrip u = u := hp
  have hall1 : (lstrip u).all okc = true := by
    rw [← hp2, List.all_append, Bool.and_eq_true] at hall
    exact hall.2
  have hadj1 : noAdj (lstrip u) = true :=
    noAdj_append_right p _ (by rw [hp2]; exact hadj)
  obtain ⟨q, hq⟩ := rstrip_append_eq (lstrip u)
  have hq2 : pyStrip u ++ q = lstrip u := hq
  constructor
  · rw [← hq2, List.all_append, Bool.and_eq_true] at hall1
    exact hall1.1
  · exact noAdj_append_left _ q (by rw [hq2]; exact hadj1)

lemma dropWhile_eq_self_of_head (l : List Char)
    (h : ∀ x, l.head? = some x → pyWS x = false) : l.dropWhile pyWS = l := by
  cases l with
  | nil => rfl
  | cons c t => simp [List.dropWhile_cons, h c rfl]

lemma lstrip_head (l : List Char) :
    ∀ x, (lstrip l).head? = some x → pyWS x = false := by
  intro x hx
  have h0 := List.head?_dropWhile_not pyWS l
  unfold lstrip at hx
  rw [hx] at h0
  exact h0

lemma dropWhile_pyWS_idem (l : List Char) :
    (l.dropWhile pyWS).dropWhile pyWS = l.dropWhile pyWS :=
  dropWhile_eq_self_of_head _ (fun x hx => by
    have h0 := List.head?_dropWhile_not pyWS l
    rw [hx] at h0
    exact h0)

lemma rstrip_idem (m : List Char) : rstrip (rstrip m) = rstrip m := by
  unfold rstrip
  rw [List.reverse_reverse, dropWhile_pyWS_idem]

lemma pyStrip_idem (l : List Char) : pyStrip (pyStrip l) = pyStrip l := by
  unfold pyStrip
  have h1 : lstrip (rstrip (lstrip l)) = rstrip (lstrip l) := by
    apply dropWhile_eq_self_of_head
    intro x hx
    obtain ⟨q, hq⟩ := rstrip_append_eq (lstrip l)
    cases hr : rstrip (lstrip l) with
    | nil => rw [hr] at hx; exact absurd hx (by simp)
    | cons c z =>
      rw [hr] at hx
      simp only [List.head?_cons, Option.some.injEq] at hx
      subst hx
      apply lstrip_head l
      rw [← hq, hr]
      rfl
  rw [h1]
  exact rstrip_idem (lstrip l)

lemma dropWhile_dashFix (l : List Char) :
    (dashFix l).dropWhile pyWS = dashFix (l.dropWhile pyWS) := by
  induction l with
  | nil => rfl
  | cons c t ih =>
    by_cases h : pyWS c = true
    · have h2 : pyWS (dashChar c) = true := by rw [pyWS_dashChar]; exact h
      simp [dashFix, List.dropWhile_cons, h, h2] at *
      exact ih
    · have h' : pyWS c = false := by rwa [Bool.not_eq_true] at h
      have h2 : pyWS (dashChar c) = false := by rw [pyWS_dashChar]; exact h'
      simp [dashFix, List.dropWhile_cons, h', h2]

lemma dashFix_reverse (l : List Char) : dashFix l.reverse = (dashFix l).reverse := by
  unfold dashFix
  exact (List.map_reverse dashChar l)

lemma pyStrip_dashFix (l : List Char) :
    pyStrip (dashFix l) = dashFix (pyStrip l) := by
  unfold pyStrip lstrip rstrip
  rw [dropWhile_dashFix]
  rw [show (dashFix (l.dropWhile pyWS)).reverse = dashFix (l.dropWhile pyWS).reverse from
    (dashFix_reverse _).symm]
  rw [dropWhile_dashFix, dashFix_reverse]

/-- C9 —: idempotence of both text normalizers — `normalize` of
`extract_invoice_ocr.py` (dash replacement plus whitespace collapsing)
and `clean_text` of the FIXED OCR script (additionally stripped):
normalizing already-normalized text yields the same text. -/
theorem c9_normalizer_idempotent (t : List Char) :
    normalize (normalize t) = normalize t ∧
    clean_text (clean_text t) = clean_text t := by
  constructor
  · unfold normalize
    rw [dashFix_collapseWS, dashFix_idem]
    exact collapseWS_idem _
  · unfold clean_text
    have hufix : dashFix (collapseWS (dashFix t)) = collapseWS (dashFix t) := by
      rw [dashFix_collapseWS, dashFix_idem]
    have h1 : dashFix (pyStrip (collapseWS (dashFix t))) =
        pyStrip (collapseWS (dashFix t)) := by
      rw [← pyStrip_dashFix, hufix]
    rw [h1]
    have hparts := collapsed_parts_strip (collapseWS (dashFix t))
      (collapseWSGo_all_okc false (dashFix t)) (collapseWSGo_noAdj false (dashFix t))
    rw [collapseWS_fix (pyStrip (collapseWS (dashFix t))) hparts.1 hparts.2]
    exact pyStrip_idem _

end PdfExtract
